import Mathlib

/-!
Shallow embedding of the PromptCanvas collaborative prompt platform core:
the workspace access-control module (`src/utils/workspace-access.ts`), the
invitation flow (`WorkspaceMembers` component), and the collaborative editor
session (versioning, debounce, broadcast merge; `CollaborativeEditor`).
-/

namespace PromptCanvas

/-- Workspace-scoped roles, `'owner' | 'editor' | 'viewer'` in the source. -/
inductive Role where
  | owner
  | editor
  | viewer
deriving DecidableEq, Repr

/-- Actions gated by `canPerformAction`: `'read' | 'write' | 'admin'`. -/
inductive Action where
  | read
  | write
  | admin
deriving DecidableEq, Repr

/-- `canPerformAction(userRole, action)` from `src/utils/workspace-access.ts`:
a switch on the action, membership tests on the role. -/
def canPerformAction (userRole : Role) (action : Action) : Bool :=
  match action with
  | .read => [Role.owner, Role.editor, Role.viewer].contains userRole
  | .write => [Role.owner, Role.editor].contains userRole
  | .admin => userRole = Role.owner

/-- Error codes of `WorkspaceAccessError`: `'FORBIDDEN' | 'NOT_FOUND'`. -/
inductive AccessCode where
  | FORBIDDEN
  | NOT_FOUND
deriving DecidableEq, Repr

/-- `WorkspaceAccessError`, the single tagged error type: a human message
plus a machine-checkable code (default `FORBIDDEN` in the constructor). -/
structure WorkspaceAccessError where
  message : String
  code : AccessCode := .FORBIDDEN
deriving DecidableEq, Repr

/-- A `workspaceMembers` row (fields the access module reads). -/
structure WorkspaceMember where
  id : String
  workspaceId : String
  userId : String
  role : Role
deriving DecidableEq, Repr

/-- The membership table: the list of all `workspaceMembers` rows. -/
abbrev MemberDb := List WorkspaceMember

/-- `checkWorkspaceAccess(workspaceId, userId)`: list rows matching both
keys; empty result is a `FORBIDDEN` error, otherwise the first row's role. -/
def checkWorkspaceAccess (db : MemberDb) (workspaceId userId : String) :
    Except WorkspaceAccessError Role :=
  let members := db.filter fun m => m.workspaceId = workspaceId ∧ m.userId = userId
  match members with
  | [] => .error ⟨"Access denied: You are not a member of this workspace", .FORBIDDEN⟩
  | m :: _ => .ok m.role

/-- The final step of `removeWorkspaceMember`: list the target's rows and
delete the first one by id (`delete(members[0].id)`); when no row exists the
operation is a silent no-op. -/
def deleteMemberRow (db : MemberDb) (workspaceId userId : String) : MemberDb :=
  match db.filter fun m => m.workspaceId = workspaceId ∧ m.userId = userId with
  | [] => db
  | m :: _ => db.filter fun x => x.id ≠ m.id

/-- `removeWorkspaceMember(workspaceId, userId, requestingUserId)`: re-resolve
the requester's role via `checkWorkspaceAccess`, permit only owners or
self-removal, refuse to remove the last owner (the source's nested
`if self ∧ owner` / `if owners.length <= 1` pair is flattened into one
conjunction guarding the same throw), then delete the first matching target
row. Returns the table after the call; an error performs no mutation (in the
source every throw happens before the delete). -/
def removeWorkspaceMember (db : MemberDb) (workspaceId userId requestingUserId : String) :
    Except WorkspaceAccessError MemberDb :=
  match checkWorkspaceAccess db workspaceId requestingUserId with
  | .error e => .error e
  | .ok requestingUserRole =>
    if requestingUserRole ≠ Role.owner ∧ requestingUserId ≠ userId then
      .error ⟨"Only workspace owners can remove other members", .FORBIDDEN⟩
    else if requestingUserId = userId ∧ requestingUserRole = Role.owner ∧
        (db.filter fun m => m.workspaceId = workspaceId ∧ m.role = Role.owner).length ≤ 1 then
      .error ⟨"Cannot remove the last owner from workspace", .FORBIDDEN⟩
    else
      .ok (deleteMemberRow db workspaceId userId)

/-- The membership table observed after a `removeWorkspaceMember` call:
on error no row was deleted, so the table is unchanged. -/
def afterRemove (db : MemberDb) (workspaceId userId requestingUserId : String) : MemberDb :=
  match removeWorkspaceMember db workspaceId userId requestingUserId with
  | .ok db' => db'
  | .error _ => db

/-- The rows of workspace `w` holding role `owner`. -/
def ownersOf (db : MemberDb) (w : String) : List WorkspaceMember :=
  db.filter fun m => m.workspaceId = w ∧ m.role = Role.owner

/-! ### Invitations (`WorkspaceMembers` component) -/

/-- A `workspaceInvitations` row. Times are in milliseconds since epoch. -/
structure WorkspaceInvitation where
  workspaceId : String
  email : String
  role : Role
  invitedBy : String
  expiresAt : Nat
  acceptedAt : Option Nat
  createdAt : Nat
deriving DecidableEq, Repr

/-- Milliseconds in one day. -/
def msPerDay : Nat := 86400000

/-- The record created by `handleInviteMember`'s
`blink.db.workspaceInvitations.create` call: email lower-cased and trimmed,
`expiresAt` set to now plus seven days, no `acceptedAt`. -/
def mkInvitation (workspaceId inviteEmail : String) (inviteRole : Role)
    (userId : String) (now : Nat) : WorkspaceInvitation :=
  { workspaceId := workspaceId
    email := inviteEmail.toLower.trim
    role := inviteRole
    invitedBy := userId
    expiresAt := now + 7 * msPerDay
    acceptedAt := none
    createdAt := now }

/-- `handleInviteMember`: refuse a blank email, refuse a non-admin requester
(`canPerformAction(userRole, 'admin')`), otherwise append the new invitation
row. `none` models the early-return-with-toast paths. -/
def handleInviteMember (userRole : Role) (inviteEmail : String) (inviteRole : Role)
    (userId workspaceId : String) (now : Nat) (db : List WorkspaceInvitation) :
    Option (List WorkspaceInvitation) :=
  if inviteEmail.trim = "" then none
  else if ¬ canPerformAction userRole Action.admin then none
  else some (db ++ [mkInvitation workspaceId inviteEmail inviteRole userId now])

/-- `loadInvitations`: list rows with the given `workspaceId` and
`acceptedAt: null`, ordered by `createdAt` descending. -/
def loadInvitations (db : List WorkspaceInvitation) (workspaceId : String) :
    List WorkspaceInvitation :=
  ((db.filter fun i => i.workspaceId = workspaceId ∧ i.acceptedAt = none).insertionSort
    fun a b => b.createdAt ≤ a.createdAt)

/-! ### Version store (`CollaborativeEditor`: `loadVersions`, `savePrompt`) -/

/-- A `prompt_versions` row (the fields the editor reads and writes). -/
structure PromptVersion where
  id : String
  prompt_id : String
  version_number : Nat
  content : String
  title : Option String
  description : Option String
  user_id : String
deriving DecidableEq, Repr

/-- The live `prompts` row fields that `savePrompt` updates. -/
structure Prompt where
  id : String
  title : String
  content : String
  description : String
deriving DecidableEq, Repr

/-- The ordering relation of `orderBy version_number desc`. -/
def versionDescRel (a b : PromptVersion) : Prop :=
  b.version_number ≤ a.version_number

instance : DecidableRel versionDescRel := fun a b =>
  inferInstanceAs (Decidable (b.version_number ≤ a.version_number))

instance : IsTotal PromptVersion versionDescRel :=
  ⟨fun a b => (Nat.le_total b.version_number a.version_number)⟩

instance : IsTrans PromptVersion versionDescRel :=
  ⟨fun _ _ _ hab hbc => Nat.le_trans hbc hab⟩

/-- Sort prompt versions by `version_number` descending (the
`orderBy version_number desc` clause of `loadVersions`). -/
def sortByVersionDesc (l : List PromptVersion) : List PromptVersion :=
  l.insertionSort versionDescRel

/-- `loadVersions`: list rows for the prompt ordered by version number
descending, `limit: 20`. -/
def loadVersions (db : List PromptVersion) (promptId : String) : List PromptVersion :=
  (sortByVersionDesc (db.filter fun v => v.prompt_id = promptId)).take 20

/-- `Math.max(...versions.map(v => v.version_number), 0)`. -/
def maxVersionNumber (versions : List PromptVersion) : Nat :=
  versions.foldr (fun v acc => max v.version_number acc) 0

/-- The persistent state `savePrompt` touches: the live prompt row and the
version table, plus the component's `versions` state (the last `loadVersions`
result, which `savePrompt` reads to compute the next version number). -/
structure EditorStore where
  prompt : Prompt
  versionDb : List PromptVersion
  versions : List PromptVersion
deriving Repr

/-- `savePrompt(newContent, newTitle, newDescription)`: update the prompt row,
compute `nextVersionNumber = Math.max(...versions.map(version_number), 0) + 1`
from the in-memory `versions` state, append the new immutable version record,
then refresh `versions` via `loadVersions`. `newId` stands for the generated
`version_${Date.now()}_${random}` id and `userId` for `currentUser.id`. -/
def savePrompt (st : EditorStore) (promptId : String) (newContent newTitle newDescription : String)
    (userId newId : String) : EditorStore :=
  let prompt' := { st.prompt with
    content := newContent, title := newTitle, description := newDescription }
  let nextVersionNumber := maxVersionNumber st.versions + 1
  let newRecord : PromptVersion :=
    { id := newId
      prompt_id := promptId
      version_number := nextVersionNumber
      content := newContent
      title := some newTitle
      description := some newDescription
      user_id := userId }
  let versionDb' := st.versionDb ++ [newRecord]
  { prompt := prompt'
    versionDb := versionDb'
    versions := loadVersions versionDb' promptId }

/-- `restoreVersion(version)`: copy the chosen version's content, title and
description into the live fields and persist them through `savePrompt`, which
appends a fresh version record; `undefined` title/description become `''`. -/
def restoreVersion (st : EditorStore) (promptId : String) (version : PromptVersion)
    (userId newId : String) : EditorStore :=
  savePrompt st promptId version.content (version.title.getD "")
    (version.description.getD "") userId newId

/-- The fresh store after `loadData` for a prompt with an empty version log:
the prompt row is loaded and `versions := loadVersions` of the empty table. -/
def initialStore (p : Prompt) : EditorStore :=
  { prompt := p, versionDb := [], versions := [] }

/-- `n` sequential `savePrompt` calls (no concurrency): call `k` saves
content `c k`, title `ti k`, description `de k` under generated id `ids k`. -/
def iterateSaves (promptId userId : String) (c ti de ids : Nat → String) :
    Nat → EditorStore → EditorStore
  | 0, st => st
  | n + 1, st =>
      savePrompt (iterateSaves promptId userId c ti de ids n st)
        promptId (c n) (ti n) (de n) userId (ids n)

/-! ### Editor runtime (broadcast merge, debounced save) -/

/-- The payload published by `handleContentChange` / `handleTitleChange` /
`handleDescriptionChange`: full current `{content, title, description,
timestamp}`. On the receiving side title/description may be absent
(`undefined`), hence `Option`. -/
structure BroadcastPayload where
  content : String
  title : Option String
  description : Option String
  timestamp : Nat
deriving DecidableEq, Repr

/-- A realtime channel message as seen by `channel.onMessage`. -/
structure RealtimeMessage where
  type : String
  userId : String
  data : BroadcastPayload
deriving DecidableEq, Repr

/-- The arguments captured for a pending `savePrompt(...)` call. -/
structure SaveRequest where
  content : String
  title : String
  description : String
deriving DecidableEq, Repr

/-- The in-memory editor runtime state: the three edited fields and
`saveTimeoutRef` as the absolute fire time plus the arguments the
`setTimeout` closure captured when the timer was armed. -/
structure EditorRuntime where
  content : String
  title : String
  description : String
  saveTimeout : Option (Nat × SaveRequest)
deriving DecidableEq, Repr

/-- The debounce window: `setTimeout(..., 2000)`. -/
def debounceMs : Nat := 2000

/-- Events driving one editor session, each stamped with its time in ms. -/
inductive EditorEvent where
  | editContent (t : Nat) (newContent : String)
  | editTitle (t : Nat) (newTitle : String)
  | editDescription (t : Nat) (newDescription : String)
  | remote (t : Nat) (m : RealtimeMessage)
  | manualSave (t : Nat)
  | clockReach (t : Nat)
deriving DecidableEq, Repr

/-- One step of the editor session for user `selfId`; returns the new state
and the `savePrompt` calls fired by the step (fire time with arguments).

* `editContent`/`editTitle`/`editDescription` mirror `handleContentChange`,
  `handleTitleChange`, `handleDescriptionChange`: set the field, publish a
  broadcast (not tracked here), clear any pending timeout and arm a new one
  for `debounceMs` later whose closure captures the current field values.
* `remote` mirrors the `channel.onMessage` handler: only a `content_change`
  message from a different user overwrites content/title/description
  (`message.data.title || ''`); nothing else changes and no save fires.
* `manualSave` mirrors `handleManualSave`: clear the pending timeout and call
  `savePrompt` immediately with the current in-memory fields.
* `clockReach t` lets wall-clock time reach `t`: a pending timeout due by `t`
  fires its captured `savePrompt` call at its deadline. -/
def stepEditor (selfId : String) (s : EditorRuntime) :
    EditorEvent → EditorRuntime × List (Nat × SaveRequest)
  | .editContent t newContent =>
      ({ s with content := newContent
                saveTimeout := some (t + debounceMs, ⟨newContent, s.title, s.description⟩) }, [])
  | .editTitle t newTitle =>
      ({ s with title := newTitle
                saveTimeout := some (t + debounceMs, ⟨s.content, newTitle, s.description⟩) }, [])
  | .editDescription t newDescription =>
      ({ s with description := newDescription
                saveTimeout := some (t + debounceMs, ⟨s.content, s.title, newDescription⟩) }, [])
  | .remote _ m =>
      if m.type = "content_change" ∧ m.userId ≠ selfId then
        ({ s with content := m.data.content
                  title := m.data.title.getD ""
                  description := m.data.description.getD "" }, [])
      else (s, [])
  | .manualSave t =>
      ({ s with saveTimeout := none }, [(t, ⟨s.content, s.title, s.description⟩)])
  | .clockReach t =>
      match s.saveTimeout with
      | some (ft, req) =>
          if ft ≤ t then ({ s with saveTimeout := none }, [(ft, req)])
          else (s, [])
      | none => (s, [])

/-- Run a sequence of editor events, accumulating the fired saves in order. -/
def runEditor (selfId : String) (s : EditorRuntime) :
    List EditorEvent → EditorRuntime × List (Nat × SaveRequest)
  | [] => (s, [])
  | e :: es =>
      let (s', out) := stepEditor selfId s e
      let (s'', outs) := runEditor selfId s' es
      (s'', out ++ outs)

/-! ### Session lifecycle (subscribe, presence record, unmount cleanup) -/

/-- The observable session side state: whether this client is subscribed to
the prompt's broadcast channel, whether its `prompt_sessions` presence row
exists, and the pending save timeout. -/
structure SessionLifecycle where
  channelSubscribed : Bool
  sessionRecordExists : Bool
  saveTimeout : Option (Nat × SaveRequest)
deriving DecidableEq, Repr

/-- The effect body of `loadData`: creates the `prompt_sessions` presence row
and calls `startRealtimeUpdates()`, which subscribes to the channel.
`startRealtimeUpdates` returns an unsubscribe closure, but `loadData`
discards that return value. -/
def loadDataEffect (s : SessionLifecycle) : SessionLifecycle :=
  { s with channelSubscribed := true, sessionRecordExists := true }

/-- The closure `startRealtimeUpdates` returns (`() => channel.unsubscribe()`).
No caller of `startRealtimeUpdates` ever invokes it. -/
def channelCleanup (s : SessionLifecycle) : SessionLifecycle :=
  { s with channelSubscribed := false }

/-- The unmount cleanup of the `loadData` effect: `clearTimeout` on any
pending save timer and delete the session's own `prompt_sessions` row.
It does not touch the channel subscription. -/
def unmountCleanup (s : SessionLifecycle) : SessionLifecycle :=
  { s with saveTimeout := none, sessionRecordExists := false }

/-! ## Theorems -/

/-- C4: `canPerformAction` is a pure total function with `read` granted to
every role, `write` granted exactly to owner and editor, and `admin` granted
exactly to owner. -/
theorem canPerformAction_matrix :
    ∀ role : Role,
      canPerformAction role Action.read = true ∧
      (canPerformAction role Action.write = true ↔ role = Role.owner ∨ role = Role.editor) ∧
      (canPerformAction role Action.admin = true ↔ role = Role.owner) := by
  intro role
  cases role <;> refine ⟨rfl, ?_, ?_⟩ <;> simp [canPerformAction]

/-- C8: after the editor session's unmount cleanup runs on a mounted session
(one that executed the `loadData` effect), the pending save timer is
cancelled and the `prompt_sessions` presence row is deleted, but the client
is STILL subscribed to the prompt's broadcast channel: `loadData` discards
the unsubscribe closure returned by `startRealtimeUpdates`, so no caller
ever unsubscribes, contradicting the claimed unsubscribe-on-close. -/
theorem unmount_cleanup_behavior :
    ∀ s : SessionLifecycle,
      (unmountCleanup (loadDataEffect s)).channelSubscribed = true ∧
      (unmountCleanup (loadDataEffect s)).sessionRecordExists = false ∧
      (unmountCleanup (loadDataEffect s)).saveTimeout = none := by
  intro s
  exact ⟨rfl, rfl, rfl⟩

/-- C2: a `content_change` broadcast from a different user unconditionally
overwrites the local content, title and description with the payload values,
leaves the save timer untouched, and fires no save. -/
theorem remote_content_change_overwrites
    (selfId : String) (s : EditorRuntime) (t : Nat) (m : RealtimeMessage)
    (ti de : String)
    (htype : m.type = "content_change") (huser : m.userId ≠ selfId)
    (hti : m.data.title = some ti) (hde : m.data.description = some de) :
    stepEditor selfId s (.remote t m) =
      ({ s with content := m.data.content, title := ti, description := de }, []) := by
  simp [stepEditor, htype, huser, hti, hde]

/-- Witness for C2: user `b`'s "hello" broadcast overwrites user `a`'s local
state without arming a timer or firing a save. -/
theorem remote_content_change_overwrites_witness :
    stepEditor "a" ⟨"old", "oldT", "oldD", none⟩
      (.remote 5 ⟨"content_change", "b", ⟨"hello", some "T", some "D", 5⟩⟩) =
      (⟨"hello", "T", "D", none⟩, []) :=
  remote_content_change_overwrites "a" ⟨"old", "oldT", "oldD", none⟩ 5
    ⟨"content_change", "b", ⟨"hello", some "T", some "D", 5⟩⟩ "T" "D"
    rfl (by decide) rfl rfl

/-- C10: when a `content_change` broadcast from another user lacks the title
field, the receiving session's local title becomes the empty string
(`message.data.title || ''`) rather than keeping its previous value; likewise
a missing description field clears the local description. -/
theorem remote_missing_fields_clear_local :
    (∀ (selfId : String) (s : EditorRuntime) (t : Nat) (m : RealtimeMessage),
      m.type = "content_change" → m.userId ≠ selfId → m.data.title = none →
      (stepEditor selfId s (.remote t m)).1.title = "") ∧
    (∀ (selfId : String) (s : EditorRuntime) (t : Nat) (m : RealtimeMessage),
      m.type = "content_change" → m.userId ≠ selfId → m.data.description = none →
      (stepEditor selfId s (.remote t m)).1.description = "") := by
  constructor
  · intro selfId s t m htype huser hti
    simp [stepEditor, htype, huser, hti]
  · intro selfId s t m htype huser hde
    simp [stepEditor, htype, huser, hde]

/-- Witness for C10: a payload without title/description clears the receiving
session's non-empty title and description. -/
theorem remote_missing_fields_clear_local_witness :
    (stepEditor "x" ⟨"c", "keepT", "keepD", none⟩
      (.remote 9 ⟨"content_change", "y", ⟨"new", none, none, 9⟩⟩)).1.title = "" ∧
    (stepEditor "x" ⟨"c", "keepT", "keepD", none⟩
      (.remote 9 ⟨"content_change", "y", ⟨"new", none, none, 9⟩⟩)).1.description = "" :=
  ⟨remote_missing_fields_clear_local.1 "x" ⟨"c", "keepT", "keepD", none⟩ 9
      ⟨"content_change", "y", ⟨"new", none, none, 9⟩⟩ rfl (by decide) rfl,
   remote_missing_fields_clear_local.2 "x" ⟨"c", "keepT", "keepD", none⟩ 9
      ⟨"content_change", "y", ⟨"new", none, none, 9⟩⟩ rfl (by decide) rfl⟩

/-- C3: (i) every local edit (content, title or description) replaces any
pending save timer with a fresh one due `debounceMs` = 2000 ms later,
capturing the post-edit field values; (ii) for edits at t=0, t=0.5s and t=1s
with no further edits, the run fires exactly one save, at t=3s, with the
state as of the t=1s edit, and no save fires at t=2s or t=2.5s; (iii) a
manual save cancels the pending timer and saves the latest in-memory state
immediately. -/
theorem debounce_contract :
    (∀ (selfId : String) (s : EditorRuntime) (t : Nat) (c : String),
      stepEditor selfId s (.editContent t c) =
        ({ s with content := c,
                  saveTimeout := some (t + debounceMs, ⟨c, s.title, s.description⟩) }, [])) ∧
    (∀ (selfId : String) (s : EditorRuntime) (t : Nat) (x : String),
      stepEditor selfId s (.editTitle t x) =
        ({ s with title := x,
                  saveTimeout := some (t + debounceMs, ⟨s.content, x, s.description⟩) }, [])) ∧
    (∀ (selfId : String) (s : EditorRuntime) (t : Nat) (x : String),
      stepEditor selfId s (.editDescription t x) =
        ({ s with description := x,
                  saveTimeout := some (t + debounceMs, ⟨s.content, s.title, x⟩) }, [])) ∧
    (∀ (selfId i ti0 de0 c0 c1 c2 : String),
      runEditor selfId ⟨i, ti0, de0, none⟩
        [.editContent 0 c0, .editContent 500 c1, .editContent 1000 c2,
         .clockReach 2000, .clockReach 2500, .clockReach 3000] =
        (⟨c2, ti0, de0, none⟩, [(3000, ⟨c2, ti0, de0⟩)])) ∧
    (∀ (selfId : String) (s : EditorRuntime) (t : Nat),
      stepEditor selfId s (.manualSave t) =
        ({ s with saveTimeout := none }, [(t, ⟨s.content, s.title, s.description⟩)])) := by
  refine ⟨fun _ _ _ _ => rfl, fun _ _ _ _ => rfl, fun _ _ _ _ => rfl, ?_, fun _ _ _ => rfl⟩
  intro selfId i ti0 de0 c0 c1 c2
  rfl

/-- C9: an invitation created at time `now` carries
`expiresAt = now + 7 days`, and every invitation returned by the
pending-invitations listing (which filters on `acceptedAt: null`) has no
`acceptedAt` — so any invitation with `acceptedAt` set is excluded. -/
theorem invitation_expiry_and_pending :
    (∀ (w e : String) (r : Role) (u : String) (now : Nat),
      (mkInvitation w e r u now).expiresAt = now + 7 * msPerDay) ∧
    (∀ (db : List WorkspaceInvitation) (w : String) (inv : WorkspaceInvitation),
      inv ∈ loadInvitations db w → inv.acceptedAt = none) := by
  constructor
  · intro w e r u now
    rfl
  · intro db w inv hmem
    unfold loadInvitations at hmem
    rw [List.mem_insertionSort] at hmem
    have := (List.mem_filter.mp hmem).2
    simp only [decide_eq_true_eq] at this
    exact this.2

/-- The head of a non-empty filter result is a member satisfying the
predicate. -/
theorem filter_head_mem {α : Type} {p : α → Bool} {l : List α} {a : α} {t : List α}
    (h : l.filter p = a :: t) : a ∈ l ∧ p a = true :=
  List.mem_filter.mp (h ▸ List.mem_cons_self a t)

/-- Reduction of `removeWorkspaceMember` once the role lookup fails. -/
theorem removeWorkspaceMember_check_error {db : MemberDb} {w target req : String}
    {e : WorkspaceAccessError} (h : checkWorkspaceAccess db w req = .error e) :
    removeWorkspaceMember db w target req = .error e := by
  unfold removeWorkspaceMember
  rw [h]

/-- Reduction of `removeWorkspaceMember` once the role lookup succeeds. -/
theorem removeWorkspaceMember_check_ok {db : MemberDb} {w target req : String}
    {role : Role} (h : checkWorkspaceAccess db w req = .ok role) :
    removeWorkspaceMember db w target req =
      if role ≠ Role.owner ∧ req ≠ target then
        .error ⟨"Only workspace owners can remove other members", .FORBIDDEN⟩
      else if req = target ∧ role = Role.owner ∧
          (db.filter fun m => m.workspaceId = w ∧ m.role = Role.owner).length ≤ 1 then
        .error ⟨"Cannot remove the last owner from workspace", .FORBIDDEN⟩
      else .ok (deleteMemberRow db w target) := by
  unfold removeWorkspaceMember
  rw [h]

/-- C6: `removeWorkspaceMember` (i) propagates the typed access error of the
requester's role lookup (so a non-member requester fails), (ii) fails with
the typed `FORBIDDEN` error when the requester's re-resolved role is not
`owner` and the requester is not removing themself, and (iii) when permitted
but no membership row exists for the target, succeeds as a silent no-op,
deleting nothing. -/
theorem removeMember_permission_and_noop :
    (∀ (db : MemberDb) (w target req : String) (e : WorkspaceAccessError),
      checkWorkspaceAccess db w req = .error e →
      removeWorkspaceMember db w target req = .error e) ∧
    (∀ (db : MemberDb) (w target req : String) (role : Role),
      checkWorkspaceAccess db w req = .ok role → role ≠ Role.owner → req ≠ target →
      removeWorkspaceMember db w target req =
        .error ⟨"Only workspace owners can remove other members", .FORBIDDEN⟩) ∧
    (∀ (db : MemberDb) (w target req : String) (role : Role),
      checkWorkspaceAccess db w req = .ok role →
      ¬(role ≠ Role.owner ∧ req ≠ target) →
      (db.filter fun m => m.workspaceId = w ∧ m.userId = target) = [] →
      removeWorkspaceMember db w target req = .ok db) := by
  refine ⟨?_, ?_, ?_⟩
  · intro db w target req e hcheck
    exact removeWorkspaceMember_check_error hcheck
  · intro db w target req role hcheck hrole hreq
    rw [removeWorkspaceMember_check_ok hcheck, if_pos ⟨hrole, hreq⟩]
  · intro db w target req role hcheck hperm hempty
    have hguard : ¬(req = target ∧ role = Role.owner ∧
        (db.filter fun m => m.workspaceId = w ∧ m.role = Role.owner).length ≤ 1) := by
      rintro ⟨hrt, -, -⟩
      cases hq : db.filter (fun m => m.workspaceId = w ∧ m.userId = req) with
      | nil =>
        unfold checkWorkspaceAccess at hcheck
        rw [hq] at hcheck
        cases hcheck
      | cons r rs =>
        rw [hrt, hempty] at hq
        cases hq
    rw [removeWorkspaceMember_check_ok hcheck, if_neg hperm, if_neg hguard]
    unfold deleteMemberRow
    rw [hempty]

/-- Witness for C6: on concrete one-row tables, a non-member requester gets
the propagated `FORBIDDEN` error, a viewer removing someone else gets the
owners-only error, and an owner removing an absent user is a no-op. -/
theorem removeMember_permission_and_noop_witness :
    removeWorkspaceMember [] "w" "t" "r" =
      .error ⟨"Access denied: You are not a member of this workspace", .FORBIDDEN⟩ ∧
    removeWorkspaceMember [⟨"m1", "w", "r", Role.viewer⟩] "w" "t" "r" =
      .error ⟨"Only workspace owners can remove other members", .FORBIDDEN⟩ ∧
    removeWorkspaceMember [⟨"m1", "w", "r", Role.owner⟩] "w" "t" "r" =
      .ok [⟨"m1", "w", "r", Role.owner⟩] := by
  refine ⟨?_, ?_, ?_⟩
  · exact removeMember_permission_and_noop.1 [] "w" "t" "r"
      ⟨"Access denied: You are not a member of this workspace", .FORBIDDEN⟩ rfl
  · exact removeMember_permission_and_noop.2.1 [⟨"m1", "w", "r", Role.viewer⟩]
      "w" "t" "r" Role.viewer rfl (by decide) (by decide)
  · exact removeMember_permission_and_noop.2.2 [⟨"m1", "w", "r", Role.owner⟩]
      "w" "t" "r" Role.owner rfl (by decide) (by decide)

/-- C5: (i) when a workspace has exactly one owner member, that owner's
self-removal fails with the "cannot remove last owner" error and deletes no
membership row; (ii) consequently, under unique row ids, every successful
`removeWorkspaceMember` call preserves the at-least-one-owner invariant. -/
theorem owner_invariant_and_last_owner_guard :
    (∀ (db : MemberDb) (w u : String),
      checkWorkspaceAccess db w u = .ok Role.owner →
      (ownersOf db w).length = 1 →
      removeWorkspaceMember db w u u =
        .error ⟨"Cannot remove the last owner from workspace", .FORBIDDEN⟩ ∧
      afterRemove db w u u = db) ∧
    (∀ (db db' : MemberDb) (w target req : String),
      (db.map fun m => m.id).Nodup →
      (∃ m ∈ db, m.workspaceId = w ∧ m.role = Role.owner) →
      removeWorkspaceMember db w target req = .ok db' →
      ∃ m ∈ db', m.workspaceId = w ∧ m.role = Role.owner) := by
  constructor
  · intro db w u hcheck hlen
    unfold ownersOf at hlen
    have herr : removeWorkspaceMember db w u u =
        .error ⟨"Cannot remove the last owner from workspace", .FORBIDDEN⟩ := by
      rw [removeWorkspaceMember_check_ok hcheck, if_neg (by simp),
        if_pos ⟨rfl, rfl, by rw [hlen]⟩]
    refine ⟨herr, ?_⟩
    unfold afterRemove
    rw [herr]
  · intro db db' w target req hnodup hex hok
    obtain ⟨o, ho_mem, ho_w, ho_role⟩ := hex
    have hinj := List.inj_on_of_nodup_map hnodup
    cases hcheck : checkWorkspaceAccess db w req with
    | error e =>
      rw [removeWorkspaceMember_check_error hcheck] at hok
      cases hok
    | ok role =>
      rw [removeWorkspaceMember_check_ok hcheck] at hok
      by_cases hperm : role ≠ Role.owner ∧ req ≠ target
      · rw [if_pos hperm] at hok
        cases hok
      rw [if_neg hperm] at hok
      by_cases hguard : req = target ∧ role = Role.owner ∧
          (db.filter fun m => m.workspaceId = w ∧ m.role = Role.owner).length ≤ 1
      · rw [if_pos hguard] at hok
        cases hok
      rw [if_neg hguard] at hok
      injection hok with hdb'
      subst hdb'
      unfold deleteMemberRow
      cases hm : db.filter (fun m => m.workspaceId = w ∧ m.userId = target) with
      | nil => exact ⟨o, ho_mem, ho_w, ho_role⟩
      | cons m ms =>
        obtain ⟨hm_mem, hm_p⟩ := filter_head_mem hm
        simp only [decide_eq_true_eq, Bool.and_eq_true] at hm_p
        obtain ⟨hm_w, hm_u⟩ := hm_p
        by_cases hrole_m : m.role = Role.owner
        · by_cases hrt : req = target
          · subst hrt
            have hrole_eq : role = Role.owner := by
              cases hq : db.filter (fun x => x.workspaceId = w ∧ x.userId = req) with
              | nil =>
                unfold checkWorkspaceAccess at hcheck
                rw [hq] at hcheck
                cases hcheck
              | cons r rs =>
                unfold checkWorkspaceAccess at hcheck
                rw [hq] at hcheck
                injection hcheck with hr
                rw [hq] at hm
                injection hm with hm1 hm2
                rw [← hr, hm1, hrole_m]
            have hlen : ¬ ((db.filter fun x =>
                x.workspaceId = w ∧ x.role = Role.owner).length ≤ 1) :=
              fun hle => hguard ⟨rfl, hrole_eq, hle⟩
            obtain ⟨a, b, rest, howners⟩ : ∃ a b rest,
                (db.filter fun x => x.workspaceId = w ∧ x.role = Role.owner) =
                  a :: b :: rest := by
              cases hcase : db.filter fun x =>
                  x.workspaceId = w ∧ x.role = Role.owner with
              | nil =>
                exfalso
                exact hlen (by rw [hcase]; decide)
              | cons a tail =>
                cases tail with
                | nil =>
                  exfalso
                  exact hlen (by rw [hcase]; simp)
                | cons b rest => exact ⟨a, b, rest, rfl⟩
            have hnd : (db.filter fun x =>
                x.workspaceId = w ∧ x.role = Role.owner).Nodup :=
              List.Nodup.filter _ (List.Nodup.of_map _ hnodup)
            rw [howners] at hnd
            have hab : a ≠ b :=
              fun he => (List.nodup_cons.mp hnd).1 (he ▸ List.mem_cons_self b rest)
            have ha := List.mem_filter.mp (howners ▸ List.mem_cons_self a (b :: rest))
            have hb := List.mem_filter.mp
              (howners ▸ List.mem_cons_of_mem a (List.mem_cons_self b rest))
            simp only [decide_eq_true_eq, Bool.and_eq_true] at ha hb
            have ha_mem := ha.1
            have ha_w := ha.2.1
            have ha_role := ha.2.2
            have hb_mem := hb.1
            have hb_w := hb.2.1
            have hb_role := hb.2.2
            by_cases haid : a.id = m.id
            · have hbid : b.id ≠ m.id := fun hbe =>
                hab (hinj ha_mem hb_mem (by rw [haid, hbe]))
              exact ⟨b, List.mem_filter.mpr ⟨hb_mem, by simpa using hbid⟩, hb_w, hb_role⟩
            · exact ⟨a, List.mem_filter.mpr ⟨ha_mem, by simpa using haid⟩, ha_w, ha_role⟩
          · have hrole_eq : role = Role.owner := by
              by_contra hro
              exact hperm ⟨hro, hrt⟩
            cases hq : db.filter (fun x => x.workspaceId = w ∧ x.userId = req) with
            | nil =>
              unfold checkWorkspaceAccess at hcheck
              rw [hq] at hcheck
              cases hcheck
            | cons r rs =>
              unfold checkWorkspaceAccess at hcheck
              rw [hq] at hcheck
              injection hcheck with hr
              obtain ⟨hr_mem, hr_p⟩ := filter_head_mem hq
              simp only [decide_eq_true_eq, Bool.and_eq_true] at hr_p
              obtain ⟨hr_w, hr_u⟩ := hr_p
              have hrm : r ≠ m := fun he => hrt (by rw [← hr_u, he, hm_u])
              have hrid : r.id ≠ m.id := fun he => hrm (hinj hr_mem hm_mem he)
              exact ⟨r, List.mem_filter.mpr ⟨hr_mem, by simpa using hrid⟩, hr_w,
                by rw [hr, hrole_eq]⟩
        · have hom : o ≠ m := fun he => hrole_m (he ▸ ho_role)
          have hoid : o.id ≠ m.id := fun he => hom (hinj ho_mem hm_mem he)
          exact ⟨o, List.mem_filter.mpr ⟨ho_mem, by simpa using hoid⟩, ho_w, ho_role⟩

/-- Witness for C5: in a one-member workspace the sole owner cannot remove
themself (the table is untouched), and an owner removing a viewer from a
two-row table keeps an owner in the workspace. -/
theorem owner_invariant_and_last_owner_guard_witness :
    (removeWorkspaceMember [⟨"m1", "w", "u", Role.owner⟩] "w" "u" "u" =
      .error ⟨"Cannot remove the last owner from workspace", .FORBIDDEN⟩ ∧
     afterRemove [⟨"m1", "w", "u", Role.owner⟩] "w" "u" "u" =
      [⟨"m1", "w", "u", Role.owner⟩]) ∧
    (∃ m ∈ afterRemove [⟨"m1", "w", "u", Role.owner⟩, ⟨"m2", "w", "v", Role.viewer⟩]
        "w" "v" "u", m.workspaceId = "w" ∧ m.role = Role.owner) := by
  constructor
  · exact owner_invariant_and_last_owner_guard.1 [⟨"m1", "w", "u", Role.owner⟩]
      "w" "u" rfl (by decide)
  · exact owner_invariant_and_last_owner_guard.2
      [⟨"m1", "w", "u", Role.owner⟩, ⟨"m2", "w", "v", Role.viewer⟩]
      [⟨"m1", "w", "u", Role.owner⟩] "w" "v" "u" (by decide)
      ⟨⟨"m1", "w", "u", Role.owner⟩, by decide, rfl, rfl⟩ rfl

/-- Every member of a version list is bounded by `maxVersionNumber`. -/
theorem le_maxVersionNumber {v : PromptVersion} {l : List PromptVersion} (h : v ∈ l) :
    v.version_number ≤ maxVersionNumber l := by
  induction l with
  | nil => cases h
  | cons a t ih =>
    rcases List.mem_cons.mp h with rfl | h'
    · exact Nat.le_max_left _ _
    · exact Nat.le_trans (ih h') (Nat.le_max_right _ _)

/-- `maxVersionNumber` is the least upper bound (with floor 0). -/
theorem maxVersionNumber_le {l : List PromptVersion} {b : Nat}
    (h : ∀ v ∈ l, v.version_number ≤ b) : maxVersionNumber l ≤ b := by
  induction l with
  | nil => exact Nat.zero_le b
  | cons a t ih =>
    exact Nat.max_le.mpr ⟨h a (.head _), ih fun v hv => h v (.tail _ hv)⟩

/-- Monotonicity of `maxVersionNumber` under list inclusion. -/
theorem maxVersionNumber_subset {l₁ l₂ : List PromptVersion} (h : l₁ ⊆ l₂) :
    maxVersionNumber l₁ ≤ maxVersionNumber l₂ :=
  maxVersionNumber_le fun _ hv => le_maxVersionNumber (h hv)

/-- The 20-row page returned by `loadVersions` has the same maximum version
number as the full per-prompt log: the page is a descending-sorted prefix,
so its head is the global maximum. -/
theorem loadVersions_maxVersionNumber (db : List PromptVersion) (pid : String) :
    maxVersionNumber (loadVersions db pid) =
      maxVersionNumber (db.filter fun v => v.prompt_id = pid) := by
  unfold loadVersions sortByVersionDesc
  set l := db.filter fun v => v.prompt_id = pid with hl
  have hperm := List.perm_insertionSort versionDescRel l
  have hsorted := List.sorted_insertionSort versionDescRel l
  cases hs : l.insertionSort versionDescRel with
  | nil =>
    have hnil : l = [] := by
      have := hs ▸ hperm
      exact this.symm.eq_nil
    rw [hnil]
    rfl
  | cons h t =>
    rw [hs] at hperm hsorted
    have hhd : ∀ v ∈ t, v.version_number ≤ h.version_number :=
      fun v hv => (List.sorted_cons.mp hsorted).1 v hv
    have htake : (h :: t).take 20 = h :: t.take 19 := rfl
    rw [htake]
    have h1 : maxVersionNumber (h :: t.take 19) = h.version_number := by
      show max h.version_number (maxVersionNumber (t.take 19)) = h.version_number
      exact Nat.max_eq_left
        (maxVersionNumber_le fun v hv => hhd v (List.take_subset 19 t hv))
    have h2 : maxVersionNumber (h :: t) = h.version_number := by
      show max h.version_number (maxVersionNumber t) = h.version_number
      exact Nat.max_eq_left (maxVersionNumber_le hhd)
    rw [h1]
    exact (Nat.le_antisymm (maxVersionNumber_subset hperm.symm.subset)
      (h2 ▸ maxVersionNumber_subset hperm.subset)).symm ▸ h2.symm ▸ rfl

/-- A version table whose numbers are exactly `1..n` has maximum `n`. -/
theorem maxVersionNumber_of_map_range (db : List PromptVersion) (n : Nat)
    (h : db.map (fun v => v.version_number) = List.range' 1 n) :
    maxVersionNumber db = n := by
  cases n with
  | zero =>
    have : db = [] := List.map_eq_nil_iff.mp h
    rw [this]
    rfl
  | succ m =>
    have hmem : (m + 1) ∈ db.map (fun v => v.version_number) := by
      rw [h, List.mem_range']
      exact ⟨m, Nat.lt_succ_self m, by omega⟩
    obtain ⟨v, hv, hvn⟩ := List.mem_map.mp hmem
    refine Nat.le_antisymm ?_ (hvn ▸ le_maxVersionNumber hv)
    refine maxVersionNumber_le fun w hw => ?_
    have : w.version_number ∈ db.map (fun v => v.version_number) :=
      List.mem_map.mpr ⟨w, hw, rfl⟩
    rw [h, List.mem_range'] at this
    obtain ⟨i, hi, hie⟩ := this
    omega

/-- Sequential-save invariant: after `n` saves from an empty log the version
numbers are exactly `1..n`, every record belongs to the prompt, and the
in-memory `versions` state is the last `loadVersions` page. -/
theorem iterateSaves_invariant (p : Prompt) (pid uid : String)
    (c ti de ids : Nat → String) (n : Nat) :
    ((iterateSaves pid uid c ti de ids n (initialStore p)).versionDb.map
        (fun v => v.version_number) = List.range' 1 n) ∧
    (∀ v ∈ (iterateSaves pid uid c ti de ids n (initialStore p)).versionDb,
        v.prompt_id = pid) ∧
    ((iterateSaves pid uid c ti de ids n (initialStore p)).versions =
      loadVersions (iterateSaves pid uid c ti de ids n (initialStore p)).versionDb pid) := by
  induction n with
  | zero =>
    refine ⟨rfl, ?_, rfl⟩
    intro v hv
    cases hv
  | succ m ih =>
    obtain ⟨h1, h2, h3⟩ := ih
    set st := iterateSaves pid uid c ti de ids m (initialStore p) with hst
    have hfilter : (st.versionDb.filter fun v => v.prompt_id = pid) = st.versionDb :=
      List.filter_eq_self.mpr fun v hv => by
        simpa using h2 v hv
    have hmax : maxVersionNumber st.versions = m := by
      rw [h3, loadVersions_maxVersionNumber, hfilter]
      exact maxVersionNumber_of_map_range st.versionDb m h1
    have hdb : (iterateSaves pid uid c ti de ids (m + 1) (initialStore p)).versionDb =
        st.versionDb ++ [⟨ids m, pid, maxVersionNumber st.versions + 1, c m,
          some (ti m), some (de m), uid⟩] := rfl
    refine ⟨?_, ?_, rfl⟩
    · rw [hdb, List.map_append, h1, hmax, List.range'_1_concat]
      simp [Nat.add_comm]
    · intro v hv
      rw [hdb] at hv
      rcases List.mem_append.mp hv with hv' | hv'
      · exact h2 v hv'
      · rcases List.mem_singleton.mp hv' with rfl
        rfl

/-- C1: starting from an empty version log, `n` sequential `savePrompt` calls
(each computing `nextVersionNumber = max(existing, 0) + 1` from the freshly
reloaded page) produce version records numbered exactly `1..n`, with no gaps
and no duplicates. -/
theorem sequential_saves_number_versions (p : Prompt) (pid uid : String)
    (c ti de ids : Nat → String) (n : Nat) :
    (iterateSaves pid uid c ti de ids n (initialStore p)).versionDb.map
        (fun v => v.version_number) = List.range' 1 n :=
  (iterateSaves_invariant p pid uid c ti de ids n).1

/-- C7: restoring version `K` appends one new version record whose content is
`K.content` (titles/descriptions copied, `undefined` becoming `''`), copies
`K`'s fields into the live prompt, and leaves every existing record — `K`
included — unchanged in the log. -/
theorem restore_appends_copy (st : EditorStore) (pid : String) (K : PromptVersion)
    (uid newId : String) (hK : K ∈ st.versionDb) :
    (restoreVersion st pid K uid newId).versionDb =
      st.versionDb ++ [⟨newId, pid, maxVersionNumber st.versions + 1, K.content,
        some (K.title.getD ""), some (K.description.getD ""), uid⟩] ∧
    K ∈ (restoreVersion st pid K uid newId).versionDb ∧
    (restoreVersion st pid K uid newId).prompt.content = K.content ∧
    (restoreVersion st pid K uid newId).prompt.title = K.title.getD "" ∧
    (restoreVersion st pid K uid newId).prompt.description = K.description.getD "" := by
  refine ⟨rfl, ?_, rfl, rfl, rfl⟩
  show K ∈ st.versionDb ++ [_]
  exact List.mem_append_left _ hK

/-- Witness for C7: restoring the sole version of a one-record log appends a
copy of its content and keeps the original record in the log. -/
theorem restore_appends_copy_witness :
    (restoreVersion ⟨⟨"p", "t", "c", "d"⟩,
        [⟨"v1", "p", 1, "body", some "T", none, "u"⟩],
        [⟨"v1", "p", 1, "body", some "T", none, "u"⟩]⟩
      "p" ⟨"v1", "p", 1, "body", some "T", none, "u"⟩ "u" "v2").prompt.content = "body" ∧
    (⟨"v1", "p", 1, "body", some "T", none, "u"⟩ : PromptVersion) ∈
      (restoreVersion ⟨⟨"p", "t", "c", "d"⟩,
        [⟨"v1", "p", 1, "body", some "T", none, "u"⟩],
        [⟨"v1", "p", 1, "body", some "T", none, "u"⟩]⟩
      "p" ⟨"v1", "p", 1, "body", some "T", none, "u"⟩ "u" "v2").versionDb := by
  have h := restore_appends_copy ⟨⟨"p", "t", "c", "d"⟩,
    [⟨"v1", "p", 1, "body", some "T", none, "u"⟩],
    [⟨"v1", "p", 1, "body", some "T", none, "u"⟩]⟩
    "p" ⟨"v1", "p", 1, "body", some "T", none, "u"⟩ "u" "v2" (List.Mem.head _)
  exact ⟨h.2.2.1, h.2.1⟩

/-- Witness for C9: a concrete freshly created invitation expires seven days
after issuance, and the sole pending invitation of a one-row table has no
`acceptedAt`. -/
theorem invitation_expiry_and_pending_witness :
    (mkInvitation "w1" " Bob@Example.com " Role.editor "u1" 1000).expiresAt =
      1000 + 7 * msPerDay ∧
    (⟨"w1", "a@b.c", Role.viewer, "u1", 7 * msPerDay, none, 0⟩ :
      WorkspaceInvitation).acceptedAt = none := by
  refine ⟨invitation_expiry_and_pending.1 "w1" " Bob@Example.com " Role.editor "u1" 1000, ?_⟩
  exact invitation_expiry_and_pending.2
    [⟨"w1", "a@b.c", Role.viewer, "u1", 7 * msPerDay, none, 0⟩] "w1"
    ⟨"w1", "a@b.c", Role.viewer, "u1", 7 * msPerDay, none, 0⟩ (by decide)

end PromptCanvas
